import Mathlib

/-!
Shallow embedding of the task-queue web-scraping service in src/main.py:
the task record type, the FIFO task queue, the single serial worker loop,
the janitor (cleanup of expired completed tasks), and the read-only
status/result endpoints.  Timestamps are modelled as natural-number
seconds; Python dictionaries are modelled as association lists with the
same lookup semantics (first binding wins, keys unique in all reachable
states since task ids are fresh UUIDs).
-/

namespace FeishuScrape

/-- Mirrors `TaskStatus` (main.py lines 17-22). -/
inductive TaskStatus where
  | pending
  | processing
  | completed
  | failed
  | timeout
  deriving DecidableEq, Repr

/-- Mirrors the Pydantic model `ScrapedLink` (main.py lines 25-27). -/
structure ScrapedLink where
  title : String
  url : String
  deriving DecidableEq, Repr

/-- Mirrors the Pydantic model `TaskInfo` (main.py lines 29-37). -/
structure TaskInfo where
  task_id : String
  status : TaskStatus
  url : String
  created_at : Nat
  started_at : Option Nat
  completed_at : Option Nat
  result : Option (List ScrapedLink)
  error : Option String
  deriving DecidableEq, Repr

/-- A terminal status: `Completed`, `Failed` or `Timeout` (spec glossary). -/
def terminalStatus (st : TaskStatus) : Bool :=
  match st with
  | TaskStatus.completed => true
  | TaskStatus.failed => true
  | TaskStatus.timeout => true
  | _ => false

/-- Dictionary lookup on an association list: the Python `d[k]` / `k in d`
semantics (first binding with the key wins). -/
def lookupA {α : Type} (m : List (String × α)) (k : String) : Option α :=
  match m with
  | [] => none
  | (k', v) :: rest => if k' = k then some v else lookupA rest k

/-- Dictionary deletion `del d[k]`. -/
def eraseA {α : Type} (m : List (String × α)) (k : String) : List (String × α) :=
  match m with
  | [] => []
  | (k', v) :: rest => if k' = k then eraseA rest k else (k', v) :: eraseA rest k

/-- Dictionary update `d[k] = v`. -/
def insertA {α : Type} (m : List (String × α)) (k : String) (v : α) : List (String × α) :=
  (k, v) :: eraseA m k

/-- Outcome of one PageFetcher (Playwright) invocation, the external
collaborator behind `crawl_list_page`: a successful list of links, a
navigation timeout (`PlaywrightTimeoutError`), or any other exception. -/
inductive FetchOutcome where
  | success (links : List ScrapedLink)
  | timeout
  | failure (msg : String)
  deriving DecidableEq, Repr

/-- Mirrors `crawl_list_page` (main.py lines 158-198) at the level of
observable outcomes: on success the collected `(title, url)` pairs are
returned in page order; a `PlaywrightTimeoutError` is re-raised as
`HTTPException(408, "访问URL超时: <url>")` and any other exception as
`HTTPException(500, "发生意外错误: <msg>")`.  The worker later stores
`str(e)` of the escaping exception, which Starlette renders as
`"<status_code>: <detail>"`, so the error strings carry that prefix. -/
def crawl_list_page (url : String) (o : FetchOutcome) : Except String (List ScrapedLink) :=
  match o with
  | FetchOutcome.success links => Except.ok links
  | FetchOutcome.timeout => Except.error ("408: 访问URL超时: " ++ url)
  | FetchOutcome.failure m => Except.error ("500: 发生意外错误: " ++ m)

/-- Python `timedelta.seconds` for a difference of two timestamps given in
seconds: the sub-day seconds component, i.e. the difference modulo 86400
(Python normalises `timedelta` so that `0 <= seconds < 86400`, with floor
division into days, which is exactly `Int.emod` here). -/
def tdSeconds (a b : Nat) : Int :=
  ((a : Int) - (b : Int)) % 86400

/-- The expiry test of `cleanup_expired_tasks` (main.py line 72):
`task.completed_at and (current_time - task.completed_at).seconds > 3600`. -/
def isExpired (current_time : Nat) (t : TaskInfo) : Bool :=
  match t.completed_at with
  | some c => decide (3600 < tdSeconds current_time c)
  | none => false

/-- Mirrors `cleanup_expired_tasks` (main.py lines 66-77): collect the
expired task ids of the completed partition and delete them, i.e. keep
exactly the non-expired records (order preserved). -/
def cleanup_expired_tasks (current_time : Nat)
    (completed : List (String × TaskInfo)) : List (String × TaskInfo) :=
  completed.filter (fun p => ! isExpired current_time p.2)

/-- The serial worker's local position: between iterations (`idle`) or
awaiting the `crawl_list_page` call for the dequeued task (`fetching t`,
with `t` the record already marked `processing` and published in
`active_tasks`).  Asyncio coroutines only interleave at `await` points, so
these are the only worker states other coroutines can observe. -/
inductive WorkerPhase where
  | idle
  | fetching (t : TaskInfo)
  deriving DecidableEq, Repr

/-- The shared in-memory state of the service (main.py lines 52-55)
together with the worker's phase and three observation logs used to state
temporal properties: `subLog` (task ids in submission order), `compLog`
(task ids in terminal-record order) and `hist` (per task id, the sequence
of statuses the task has been given). -/
structure SysState where
  now : Nat
  task_queue : List TaskInfo
  active_tasks : List (String × TaskInfo)
  completed_tasks : List (String × TaskInfo)
  phase : WorkerPhase
  subLog : List String
  compLog : List String
  hist : List (String × List TaskStatus)
  deriving Repr

/-- Append a status observation for a task id to the history log. -/
def histRecord (h : List (String × List TaskStatus)) (id : String)
    (st : TaskStatus) : List (String × List TaskStatus) :=
  insertA h id (((lookupA h id).getD []) ++ [st])

/-- The state at process start: empty queue, empty stores, worker idle. -/
def initState : SysState :=
  { now := 0
    task_queue := []
    active_tasks := []
    completed_tasks := []
    phase := WorkerPhase.idle
    subLog := []
    compLog := []
    hist := [] }

/-- Mirrors `submit_scrape_task` (main.py lines 214-238): build a fresh
`TaskInfo` with status `pending` and `created_at = now`, and put it on the
task queue.  Note the record is placed in the queue itself, not in
`active_tasks` or `completed_tasks`. -/
def submit_scrape_task (s : SysState) (task_id url : String) : SysState :=
  let t : TaskInfo :=
    { task_id := task_id
      status := TaskStatus.pending
      url := url
      created_at := s.now
      started_at := none
      completed_at := none
      result := none
      error := none }
  { s with
    task_queue := s.task_queue ++ [t]
    subLog := s.subLog ++ [task_id]
    hist := histRecord s.hist task_id TaskStatus.pending }

/-- The first half of a worker iteration (main.py lines 84-95): take the
head of the queue, mark it `processing` with `started_at = now`, publish
it in `active_tasks`, and start the fetch.  The Python statements from the
status update to the `active_tasks` insertion contain no `await`, so they
form one atomic step for every other coroutine. -/
def dequeueTask (s : SysState) (t : TaskInfo) (rest : List TaskInfo) : SysState :=
  let t' : TaskInfo := { t with status := TaskStatus.processing, started_at := some s.now }
  { s with
    task_queue := rest
    active_tasks := insertA s.active_tasks t.task_id t'
    phase := WorkerPhase.fetching t'
    hist := histRecord s.hist t.task_id TaskStatus.processing }

/-- The terminal record the worker writes for task `t` when
`crawl_list_page` returns outcome `o` at time `now` (main.py lines
100-116): on success status `completed` with the returned links as
`result`; on any exception — the 408 timeout one included, since the
worker only has the generic `except Exception` branch — status `failed`
with `error = str(e)`. -/
def finishRecord (t : TaskInfo) (now : Nat) (o : FetchOutcome) : TaskInfo :=
  match crawl_list_page t.url o with
  | Except.ok links =>
      { t with
        status := TaskStatus.completed
        completed_at := some now
        result := some links }
  | Except.error m =>
      { t with
        status := TaskStatus.failed
        completed_at := some now
        error := some m }

/-- The second half of a worker iteration (main.py lines 100-125): once
the fetch returns (or raises), write the terminal record into
`completed_tasks`, delete the task id from `active_tasks` (both the
success and the failure branch do this), and loop back to the dequeue.
Again no `await` separates these statements. -/
def finishTask (s : SysState) (t : TaskInfo) (o : FetchOutcome) : SysState :=
  let fin := finishRecord t s.now o
  { s with
    completed_tasks := insertA s.completed_tasks t.task_id fin
    active_tasks := eraseA s.active_tasks t.task_id
    phase := WorkerPhase.idle
    compLog := s.compLog ++ [t.task_id]
    hist := histRecord s.hist t.task_id fin.status }

/-- One janitor cycle (main.py lines 137-140): replace the completed
partition by its cleaned-up version.  Only `completed_tasks` changes. -/
def janitorCycle (s : SysState) : SysState :=
  { s with completed_tasks := cleanup_expired_tasks s.now s.completed_tasks }

/-- The wall clock advancing between observable events. -/
def advanceClock (s : SysState) (d : Nat) : SysState :=
  { s with now := s.now + d }

/-- Mirrors `get_task_status` (main.py lines 246-259): look in
`active_tasks` first, then in `completed_tasks`; `none` models the
`HTTPException(404)`. -/
def get_task_status (s : SysState) (task_id : String) : Option TaskInfo :=
  match lookupA s.active_tasks task_id with
  | some t => some t
  | none => lookupA s.completed_tasks task_id

/-- The possible answers of the result endpoint. -/
inductive ResultQuery where
  | notFound
  | badState (st : TaskStatus)
  | ok (links : List ScrapedLink)
  deriving DecidableEq, Repr

/-- Mirrors `get_task_result` (main.py lines 267-282): 404 when the id is
not in `completed_tasks`; 400 when the stored status is not `completed`;
404 when `not task.result` (i.e. `result` is `None` or the empty list);
otherwise the links. -/
def get_task_result (s : SysState) (task_id : String) : ResultQuery :=
  match lookupA s.completed_tasks task_id with
  | none => ResultQuery.notFound
  | some t =>
      if t.status ≠ TaskStatus.completed then ResultQuery.badState t.status
      else
        match t.result with
        | none => ResultQuery.notFound
        | some [] => ResultQuery.notFound
        | some (l :: ls) => ResultQuery.ok (l :: ls)

/-- The ids of the task the worker currently executes (at most one). -/
def phaseIds (ph : WorkerPhase) : List String :=
  match ph with
  | WorkerPhase.idle => []
  | WorkerPhase.fetching t => [t.task_id]

/-- Whether a record currently carries status `processing`. -/
def isProcessing (t : TaskInfo) : Bool :=
  decide (t.status = TaskStatus.processing)

/-- How many records, anywhere in the system (queue, active partition,
completed partition), carry status `processing`. -/
def processingCount (s : SysState) : Nat :=
  (s.task_queue.filter (fun t => isProcessing t)).length
    + (s.active_tasks.filter (fun p => isProcessing p.2)).length
    + (s.completed_tasks.filter (fun p => isProcessing p.2)).length

/-- The observable small-step transitions of the running service: a
submission with a fresh task id (ids are `uuid4`, never repeated), the
worker picking up the queue head while idle, the pending fetch resolving
with some outcome, the clock advancing, and a janitor cycle. -/
inductive Step : SysState → SysState → Prop where
  | submit {s : SysState} (task_id url : String) (fresh : task_id ∉ s.subLog) :
      Step s (submit_scrape_task s task_id url)
  | dequeue {s : SysState} (t : TaskInfo) (rest : List TaskInfo)
      (hq : s.task_queue = t :: rest) (hph : s.phase = WorkerPhase.idle) :
      Step s (dequeueTask s t rest)
  | fetchDone {s : SysState} (t : TaskInfo) (o : FetchOutcome)
      (hph : s.phase = WorkerPhase.fetching t) :
      Step s (finishTask s t o)
  | tick {s : SysState} (d : Nat) :
      Step s (advanceClock s d)
  | janitor {s : SysState} :
      Step s (janitorCycle s)

/-- States reachable from process start. -/
inductive Reachable : SysState → Prop where
  | init : Reachable initState
  | step {s s' : SysState} : Reachable s → Step s s' → Reachable s'

/-! ### A small concrete run, used to instantiate the general theorems -/

/-- The record created by submitting `http://example.com` at time 0. -/
def tinfo1 : TaskInfo :=
  { task_id := "task-1"
    status := TaskStatus.pending
    url := "http://example.com"
    created_at := 0
    started_at := none
    completed_at := none
    result := none
    error := none }

/-- The state after one submission at process start. -/
def st1 : SysState := submit_scrape_task initState "task-1" "http://example.com"

/-- The same record once the worker has marked it `processing`. -/
def tproc1 : TaskInfo :=
  { tinfo1 with status := TaskStatus.processing, started_at := some 0 }

/-- The state after the worker dequeues that task and starts the fetch. -/
def st2 : SysState := dequeueTask st1 tinfo1 []

/-- A completed record whose `completed_at` lies at time 0, for exercising
the janitor. -/
def oldRec : TaskInfo :=
  { task_id := "old-task"
    status := TaskStatus.completed
    url := "http://example.com/old"
    created_at := 0
    started_at := some 0
    completed_at := some 0
    result := some []
    error := none }

/-! ### Association-list lemmas -/

theorem mem_of_lookupA_some {α : Type} {m : List (String × α)} {k : String} {v : α}
    (h : lookupA m k = some v) : (k, v) ∈ m := by
  induction m with
  | nil => simp [lookupA] at h
  | cons p rest ih =>
    obtain ⟨k', v'⟩ := p
    by_cases hk : k' = k
    · subst hk
      simp [lookupA] at h
      subst h
      exact List.mem_cons_self _ _
    · simp [lookupA, hk] at h
      exact List.mem_cons_of_mem _ (ih h)

theorem mem_keys_of_lookupA_some {α : Type} {m : List (String × α)} {k : String} {v : α}
    (h : lookupA m k = some v) : k ∈ m.map Prod.fst := by
  have := mem_of_lookupA_some h
  exact List.mem_map_of_mem Prod.fst this

theorem lookupA_eq_none_of_not_mem {α : Type} {m : List (String × α)} {k : String}
    (h : k ∉ m.map Prod.fst) : lookupA m k = none := by
  induction m with
  | nil => rfl
  | cons p rest ih =>
    obtain ⟨k', v'⟩ := p
    rw [List.map_cons] at h
    have h1 : k' ≠ k := fun hc => h (hc ▸ List.mem_cons_self _ _)
    have h2 : k ∉ rest.map Prod.fst := fun hc => h (List.mem_cons_of_mem _ hc)
    simpa [lookupA, h1] using ih h2

theorem exists_lookupA_of_mem_keys {α : Type} {m : List (String × α)} {k : String}
    (h : k ∈ m.map Prod.fst) : ∃ v, lookupA m k = some v := by
  induction m with
  | nil => simp at h
  | cons p rest ih =>
    obtain ⟨k', v'⟩ := p
    by_cases hk : k' = k
    · exact ⟨v', by simp [lookupA, hk]⟩
    · rw [List.map_cons] at h
      rcases List.mem_cons.mp h with h | h
      · exact absurd h.symm hk
      · obtain ⟨v, hv⟩ := ih h
        exact ⟨v, by simp [lookupA, hk, hv]⟩

theorem lookupA_eraseA_ne {α : Type} {m : List (String × α)} {k k' : String}
    (h : k ≠ k') : lookupA (eraseA m k') k = lookupA m k := by
  induction m with
  | nil => rfl
  | cons p rest ih =>
    obtain ⟨k0, v0⟩ := p
    by_cases hk : k0 = k'
    · subst hk
      have hne : k0 ≠ k := fun hc => h hc.symm
      simpa [eraseA, lookupA, hne] using ih
    · by_cases hkk : k0 = k
      · simp [eraseA, lookupA, hk, hkk, h]
      · simpa [eraseA, lookupA, hk, hkk] using ih

theorem lookupA_insertA_self {α : Type} (m : List (String × α)) (k : String) (v : α) :
    lookupA (insertA m k v) k = some v := by
  simp [insertA, lookupA]

theorem lookupA_insertA_ne {α : Type} {m : List (String × α)} {k k' : String} (v : α)
    (h : k ≠ k') : lookupA (insertA m k' v) k = lookupA m k := by
  rw [insertA, lookupA]
  rw [if_neg (fun hc => h hc.symm)]
  exact lookupA_eraseA_ne h

theorem lookupA_of_mem_nodup {α : Type} {m : List (String × α)} {k : String} {v : α}
    (hm : (k, v) ∈ m) (hn : (m.map Prod.fst).Nodup) : lookupA m k = some v := by
  induction m with
  | nil => simp at hm
  | cons p rest ih =>
    obtain ⟨k0, v0⟩ := p
    rw [List.map_cons] at hn
    have hn' := List.nodup_cons.mp hn
    rcases List.mem_cons.mp hm with h | h
    · injection h with h1 h2
      subst h1
      subst h2
      simp [lookupA]
    · have hk : k0 ≠ k := by
        intro hc
        refine hn'.1 ?_
        rw [hc]
        exact List.mem_map.mpr ⟨(k, v), h, rfl⟩
      simp only [lookupA, if_neg hk]
      exact ih h hn'.2

theorem keys_filter_nodup {α : Type} {m : List (String × α)} (p : String × α → Bool)
    (hn : (m.map Prod.fst).Nodup) : ((m.filter p).map Prod.fst).Nodup := by
  have hsub : List.Sublist ((m.filter p).map Prod.fst) (m.map Prod.fst) :=
    List.Sublist.map Prod.fst (List.filter_sublist m)
  exact List.Nodup.sublist hsub hn

theorem lookupA_filter_some {α : Type} {m : List (String × α)} {p : String × α → Bool}
    {k : String} {v : α} (hn : (m.map Prod.fst).Nodup)
    (h : lookupA (m.filter p) k = some v) : lookupA m k = some v := by
  have hm : (k, v) ∈ m.filter p := mem_of_lookupA_some h
  have hm' : (k, v) ∈ m := List.mem_of_mem_filter hm
  exact lookupA_of_mem_nodup hm' hn

theorem not_mem_keys_eraseA {α : Type} (m : List (String × α)) (k : String) :
    k ∉ (eraseA m k).map Prod.fst := by
  induction m with
  | nil => simp [eraseA]
  | cons p rest ih =>
    obtain ⟨k0, v0⟩ := p
    by_cases hk : k0 = k
    · simpa [eraseA, hk] using ih
    · rw [eraseA]
      rw [if_neg hk, List.map_cons]
      intro hc
      rcases List.mem_cons.mp hc with hc | hc
      · exact hk hc.symm
      · exact ih hc

theorem keys_eraseA_subset {α : Type} {m : List (String × α)} {k k' : String}
    (h : k' ∈ (eraseA m k).map Prod.fst) : k' ∈ m.map Prod.fst := by
  induction m with
  | nil =>
    rw [eraseA] at h
    simp at h
  | cons p rest ih =>
    obtain ⟨k0, v0⟩ := p
    by_cases hk : k0 = k
    · rw [List.map_cons]
      exact List.mem_cons_of_mem _ (ih (by simpa [eraseA, hk] using h))
    · rw [List.map_cons]
      simp only [eraseA, if_neg hk, List.map_cons] at h
      rcases List.mem_cons.mp h with h | h
      · exact h ▸ List.mem_cons_self _ _
      · exact List.mem_cons_of_mem _ (ih h)

theorem keys_insertA_nodup {α : Type} {m : List (String × α)} {k : String} (v : α)
    (hn : (m.map Prod.fst).Nodup) : ((insertA m k v).map Prod.fst).Nodup := by
  rw [insertA, List.map_cons]
  refine List.nodup_cons.mpr ⟨not_mem_keys_eraseA m k, ?_⟩
  induction m with
  | nil => simp [eraseA]
  | cons p rest ih =>
    obtain ⟨k0, v0⟩ := p
    rw [List.map_cons] at hn
    have hn' := List.nodup_cons.mp hn
    by_cases hk : k0 = k
    · simpa [eraseA, hk] using ih hn'.2
    · rw [eraseA]
      rw [if_neg hk, List.map_cons]
      refine List.nodup_cons.mpr ⟨?_, ih hn'.2⟩
      intro hc
      exact hn'.1 (keys_eraseA_subset hc)

/-! ### The reachable-state invariant -/

/-- Splitting the no-duplicates property of a three-part concatenation. -/
theorem nodup_triple {a b c : List String} (h : (a ++ b ++ c).Nodup) :
    a.Nodup ∧ b.Nodup ∧ c.Nodup ∧ (∀ x ∈ a, x ∉ b) ∧ (∀ x ∈ a, x ∉ c) ∧
    (∀ x ∈ b, x ∉ c) := by
  rw [List.nodup_append] at h
  obtain ⟨hab, hc, hd1⟩ := h
  rw [List.nodup_append] at hab
  obtain ⟨ha, hb, hd2⟩ := hab
  refine ⟨ha, hb, hc, ?_, ?_, ?_⟩
  · intro x hx hxb
    exact hd2 hx hxb
  · intro x hx hxc
    exact hd1 (List.mem_append_left _ hx) hxc
  · intro x hx hxc
    exact hd1 (List.mem_append_right _ hx) hxc

/-- The invariant every reachable state of the service satisfies. -/
structure Inv (s : SysState) : Prop where
  queue_pending : ∀ t ∈ s.task_queue,
    t.status = TaskStatus.pending ∧ t.started_at = none ∧ t.completed_at = none ∧
    t.result = none ∧ t.error = none
  fetch_shape : ∀ t, s.phase = WorkerPhase.fetching t →
    t.status = TaskStatus.processing ∧ t.result = none ∧ t.error = none ∧
    s.active_tasks = [(t.task_id, t)]
  idle_active : s.phase = WorkerPhase.idle → s.active_tasks = []
  completed_facts : ∀ id t, lookupA s.completed_tasks id = some t →
    id = t.task_id ∧ (t.status = TaskStatus.completed ∨ t.status = TaskStatus.failed)
  completed_keys_sub : ∀ id t, lookupA s.completed_tasks id = some t → id ∈ s.compLog
  completed_keys_nodup : (s.completed_tasks.map Prod.fst).Nodup
  fifo : s.subLog = s.compLog ++ phaseIds s.phase ++ s.task_queue.map TaskInfo.task_id
  sub_nodup : s.subLog.Nodup
  hist_sub : ∀ id l, lookupA s.hist id = some l → id ∈ s.subLog
  hist_queue : ∀ t ∈ s.task_queue, lookupA s.hist t.task_id = some [TaskStatus.pending]
  hist_fetch : ∀ t, s.phase = WorkerPhase.fetching t →
    lookupA s.hist t.task_id = some [TaskStatus.pending, TaskStatus.processing]
  hist_completed : ∀ id t, lookupA s.completed_tasks id = some t →
    lookupA s.hist id = some [TaskStatus.pending, TaskStatus.processing, t.status]
  hist_shape : ∀ id l, lookupA s.hist id = some l →
    l = [TaskStatus.pending] ∨ l = [TaskStatus.pending, TaskStatus.processing] ∨
    ∃ ts, terminalStatus ts = true ∧
      l = [TaskStatus.pending, TaskStatus.processing, ts]

theorem inv_init : Inv initState := by
  refine ⟨?_, ?_, ?_, ?_, ?_, ?_, ?_, ?_, ?_, ?_, ?_, ?_, ?_⟩ <;>
    simp [initState, lookupA, phaseIds]

/-! ### Facts about the terminal record the worker writes -/

theorem finishRecord_task_id (t : TaskInfo) (n : Nat) (o : FetchOutcome) :
    (finishRecord t n o).task_id = t.task_id := by
  cases o <;> rfl

theorem finishRecord_status (t : TaskInfo) (n : Nat) (o : FetchOutcome) :
    (finishRecord t n o).status = TaskStatus.completed ∨
      (finishRecord t n o).status = TaskStatus.failed := by
  cases o with
  | success links => exact Or.inl rfl
  | timeout => exact Or.inr rfl
  | failure m => exact Or.inr rfl

theorem finishRecord_completed_at (t : TaskInfo) (n : Nat) (o : FetchOutcome) :
    (finishRecord t n o).completed_at = some n := by
  cases o <;> rfl

theorem finishRecord_success (t : TaskInfo) (n : Nat) (links : List ScrapedLink) :
    finishRecord t n (FetchOutcome.success links) =
      { t with
        status := TaskStatus.completed
        completed_at := some n
        result := some links } := rfl

theorem finishRecord_timeout (t : TaskInfo) (n : Nat) :
    finishRecord t n FetchOutcome.timeout =
      { t with
        status := TaskStatus.failed
        completed_at := some n
        error := some ("408: 访问URL超时: " ++ t.url) } := rfl

theorem finishRecord_failure (t : TaskInfo) (n : Nat) (m : String) :
    finishRecord t n (FetchOutcome.failure m) =
      { t with
        status := TaskStatus.failed
        completed_at := some n
        error := some ("500: 发生意外错误: " ++ m) } := rfl

/-! ### Preservation of the invariant under each step -/

theorem inv_submit (s : SysState) (hinv : Inv s) (tid url : String)
    (fresh : tid ∉ s.subLog) : Inv (submit_scrape_task s tid url) := by
  obtain ⟨qp, fs, ia, cf, cks, ckn, ff, sn, hs, hq, hf, hc, hsh⟩ := hinv
  have hqsub : ∀ t ∈ s.task_queue, t.task_id ∈ s.subLog := by
    intro t ht
    rw [ff]
    exact List.mem_append_right _ (List.mem_map_of_mem TaskInfo.task_id ht)
  have hcsub : ∀ x ∈ s.compLog, x ∈ s.subLog := by
    intro x hx
    rw [ff]
    exact List.mem_append_left _ (List.mem_append_left _ hx)
  have hpsub : ∀ x ∈ phaseIds s.phase, x ∈ s.subLog := by
    intro x hx
    rw [ff]
    exact List.mem_append_left _ (List.mem_append_right _ hx)
  have hlooknone : lookupA s.hist tid = none := by
    cases hl : lookupA s.hist tid with
    | none => rfl
    | some l => exact absurd (hs tid l hl) fresh
  refine ⟨?_, ?_, ?_, ?_, ?_, ?_, ?_, ?_, ?_, ?_, ?_, ?_, ?_⟩ <;>
    simp only [submit_scrape_task]
  · intro t ht
    rcases List.mem_append.mp ht with h | h
    · exact qp t h
    · rcases List.mem_singleton.mp h with rfl
      exact ⟨rfl, rfl, rfl, rfl, rfl⟩
  · exact fs
  · exact ia
  · exact cf
  · exact cks
  · exact ckn
  · rw [List.map_append, ff]
    simp [List.append_assoc]
  · rw [List.nodup_append]
    exact ⟨sn, List.nodup_singleton tid, by
      intro x hx hx'
      rcases List.mem_singleton.mp hx' with rfl
      exact fresh hx⟩
  · intro id l hl
    by_cases hid : id = tid
    · subst hid
      exact List.mem_append_right _ (List.mem_singleton.mpr rfl)
    · rw [histRecord, lookupA_insertA_ne _ hid] at hl
      exact List.mem_append_left _ (hs id l hl)
  · intro t ht
    rcases List.mem_append.mp ht with h | h
    · have hne : t.task_id ≠ tid := fun hc => fresh (hc ▸ hqsub t h)
      rw [histRecord, lookupA_insertA_ne _ hne]
      exact hq t h
    · rcases List.mem_singleton.mp h with rfl
      simp only [histRecord]
      rw [lookupA_insertA_self, hlooknone]
      rfl
  · intro t hph
    have hne : t.task_id ≠ tid := by
      intro hc
      refine fresh (hc ▸ hpsub t.task_id ?_)
      rw [hph, phaseIds]
      exact List.mem_singleton.mpr rfl
    rw [histRecord, lookupA_insertA_ne _ hne]
    exact hf t hph
  · intro id t hl
    have hne : id ≠ tid := fun hc => fresh (hc ▸ hcsub id (cks id t hl))
    rw [histRecord, lookupA_insertA_ne _ hne]
    exact hc id t hl
  · intro id l hl
    by_cases hid : id = tid
    · subst hid
      rw [histRecord, lookupA_insertA_self, hlooknone] at hl
      cases hl
      exact Or.inl rfl
    · rw [histRecord, lookupA_insertA_ne _ hid] at hl
      exact hsh id l hl

theorem inv_dequeue (s : SysState) (hinv : Inv s) (t : TaskInfo) (rest : List TaskInfo)
    (hq0 : s.task_queue = t :: rest) (hph : s.phase = WorkerPhase.idle) :
    Inv (dequeueTask s t rest) := by
  obtain ⟨qp, fs, ia, cf, cks, ckn, ff, sn, hs, hq, hf, hc, hsh⟩ := hinv
  have htq : t ∈ s.task_queue := by
    rw [hq0]
    exact List.mem_cons_self _ _
  obtain ⟨hst, hsa, hca, hre, her⟩ := qp t htq
  have hact : s.active_tasks = [] := ia hph
  have ffq : s.subLog = s.compLog ++ (t.task_id :: rest.map TaskInfo.task_id) := by
    rw [ff, hph, hq0]
    simp [phaseIds]
  have sn2 : (s.compLog ++ (t.task_id :: rest.map TaskInfo.task_id)).Nodup := ffq ▸ sn
  rw [List.nodup_append] at sn2
  obtain ⟨hcompnd, hconsnd, hdisj⟩ := sn2
  have htid_comp : t.task_id ∉ s.compLog := fun h => hdisj h (List.mem_cons_self _ _)
  obtain ⟨htid_rest, hrestnd⟩ := List.nodup_cons.mp hconsnd
  refine ⟨?_, ?_, ?_, ?_, ?_, ?_, ?_, ?_, ?_, ?_, ?_, ?_, ?_⟩ <;>
    simp only [dequeueTask]
  · intro u hu
    refine qp u ?_
    rw [hq0]
    exact List.mem_cons_of_mem _ hu
  · intro u hu
    injection hu with hu
    subst hu
    refine ⟨rfl, hre, her, ?_⟩
    rw [hact]
    rfl
  · intro h
    exact nomatch h
  · exact cf
  · exact cks
  · exact ckn
  · rw [ffq]
    simp [phaseIds]
  · exact sn
  · intro id l hl
    by_cases hid : id = t.task_id
    · subst hid
      rw [ffq]
      exact List.mem_append_right _ (List.mem_cons_self _ _)
    · rw [histRecord, lookupA_insertA_ne _ hid] at hl
      exact hs id l hl
  · intro u hu
    have hne : u.task_id ≠ t.task_id := by
      intro hcx
      exact htid_rest (hcx ▸ List.mem_map_of_mem TaskInfo.task_id hu)
    rw [histRecord, lookupA_insertA_ne _ hne]
    refine hq u ?_
    rw [hq0]
    exact List.mem_cons_of_mem _ hu
  · intro u hu
    injection hu with hu
    subst hu
    show lookupA (histRecord s.hist t.task_id TaskStatus.processing) t.task_id = _
    rw [histRecord, lookupA_insertA_self, hq t htq]
    rfl
  · intro id u hl
    have hne : id ≠ t.task_id := fun hcx => htid_comp (hcx ▸ cks id u hl)
    rw [histRecord, lookupA_insertA_ne _ hne]
    exact hc id u hl
  · intro id l hl
    by_cases hid : id = t.task_id
    · subst hid
      rw [histRecord, lookupA_insertA_self, hq t htq] at hl
      cases hl
      exact Or.inr (Or.inl rfl)
    · rw [histRecord, lookupA_insertA_ne _ hid] at hl
      exact hsh id l hl

theorem inv_finish (s : SysState) (hinv : Inv s) (t : TaskInfo) (o : FetchOutcome)
    (hph : s.phase = WorkerPhase.fetching t) : Inv (finishTask s t o) := by
  obtain ⟨qp, fs, ia, cf, cks, ckn, ff, sn, hs, hq, hf, hc, hsh⟩ := hinv
  obtain ⟨hst, hre, her, hact⟩ := fs t hph
  have ffq : s.subLog = s.compLog ++ [t.task_id] ++ s.task_queue.map TaskInfo.task_id := by
    rw [ff, hph]
    rfl
  have sn2 : (s.compLog ++ [t.task_id] ++ s.task_queue.map TaskInfo.task_id).Nodup :=
    ffq ▸ sn
  obtain ⟨hcompnd, hmidnd, hqnd, hd_cm, hd_cq, hd_mq⟩ := nodup_triple sn2
  have htid_comp : t.task_id ∉ s.compLog := fun h =>
    hd_cm t.task_id h (List.mem_singleton.mpr rfl)
  have htid_q : t.task_id ∉ s.task_queue.map TaskInfo.task_id :=
    hd_mq t.task_id (List.mem_singleton.mpr rfl)
  refine ⟨?_, ?_, ?_, ?_, ?_, ?_, ?_, ?_, ?_, ?_, ?_, ?_, ?_⟩ <;>
    simp only [finishTask]
  · exact qp
  · intro u hu
    exact nomatch hu
  · intro _
    rw [hact]
    simp [eraseA]
  · intro id u hl
    by_cases hid : id = t.task_id
    · subst hid
      rw [lookupA_insertA_self] at hl
      cases hl
      exact ⟨(finishRecord_task_id t s.now o).symm, finishRecord_status t s.now o⟩
    · rw [lookupA_insertA_ne _ hid] at hl
      exact cf id u hl
  · intro id u hl
    by_cases hid : id = t.task_id
    · subst hid
      exact List.mem_append_right _ (List.mem_singleton.mpr rfl)
    · rw [lookupA_insertA_ne _ hid] at hl
      exact List.mem_append_left _ (cks id u hl)
  · exact keys_insertA_nodup _ ckn
  · rw [ffq]
    simp [phaseIds]
  · exact sn
  · intro id l hl
    by_cases hid : id = t.task_id
    · subst hid
      rw [ffq]
      exact List.mem_append_left _ (List.mem_append_right _ (List.mem_singleton.mpr rfl))
    · rw [histRecord, lookupA_insertA_ne _ hid] at hl
      exact hs id l hl
  · intro u hu
    have hne : u.task_id ≠ t.task_id := by
      intro hcx
      exact htid_q (hcx ▸ List.mem_map_of_mem TaskInfo.task_id hu)
    rw [histRecord, lookupA_insertA_ne _ hne]
    exact hq u hu
  · intro u hu
    exact nomatch hu
  · intro id u hl
    by_cases hid : id = t.task_id
    · subst hid
      rw [lookupA_insertA_self] at hl
      cases hl
      rw [histRecord, lookupA_insertA_self, hf t hph]
      rfl
    · rw [lookupA_insertA_ne _ hid] at hl
      rw [histRecord, lookupA_insertA_ne _ hid]
      exact hc id u hl
  · intro id l hl
    by_cases hid : id = t.task_id
    · subst hid
      rw [histRecord, lookupA_insertA_self, hf t hph] at hl
      cases hl
      refine Or.inr (Or.inr ⟨(finishRecord t s.now o).status, ?_, rfl⟩)
      rcases finishRecord_status t s.now o with h | h <;> rw [h] <;> rfl
    · rw [histRecord, lookupA_insertA_ne _ hid] at hl
      exact hsh id l hl

theorem inv_tick (s : SysState) (hinv : Inv s) (d : Nat) : Inv (advanceClock s d) := by
  obtain ⟨qp, fs, ia, cf, cks, ckn, ff, sn, hs, hq, hf, hc, hsh⟩ := hinv
  exact ⟨qp, fs, ia, cf, cks, ckn, ff, sn, hs, hq, hf, hc, hsh⟩

theorem inv_janitor (s : SysState) (hinv : Inv s) : Inv (janitorCycle s) := by
  obtain ⟨qp, fs, ia, cf, cks, ckn, ff, sn, hs, hq, hf, hc, hsh⟩ := hinv
  have transfer : ∀ id u,
      lookupA (janitorCycle s).completed_tasks id = some u →
      lookupA s.completed_tasks id = some u := by
    intro id u hl
    exact lookupA_filter_some ckn hl
  refine ⟨qp, fs, ia, ?_, ?_, ?_, ff, sn, hs, hq, hf, ?_, hsh⟩
  · intro id u hl
    exact cf id u (transfer id u hl)
  · intro id u hl
    exact cks id u (transfer id u hl)
  · exact keys_filter_nodup _ ckn
  · intro id u hl
    exact hc id u (transfer id u hl)

theorem inv_step {s s' : SysState} (hinv : Inv s) (hstep : Step s s') : Inv s' := by
  cases hstep with
  | submit tid url fresh => exact inv_submit s hinv tid url fresh
  | dequeue t rest hq0 hph => exact inv_dequeue s hinv t rest hq0 hph
  | fetchDone t o hph => exact inv_finish s hinv t o hph
  | tick d => exact inv_tick s hinv d
  | janitor => exact inv_janitor s hinv

theorem reach_inv {s : SysState} (h : Reachable s) : Inv s := by
  induction h with
  | init => exact inv_init
  | step _ hstep ih => exact inv_step ih hstep

/-! ### Derived facts shared by several properties -/

theorem queue_id_fresh {s : SysState} (hinv : Inv s) {t : TaskInfo}
    (ht : t ∈ s.task_queue) :
    t.task_id ∉ s.compLog ∧ t.task_id ∉ phaseIds s.phase := by
  have sn2 : (s.compLog ++ phaseIds s.phase ++ s.task_queue.map TaskInfo.task_id).Nodup :=
    hinv.fifo ▸ hinv.sub_nodup
  obtain ⟨_, _, _, _, hcq, hpq⟩ := nodup_triple sn2
  have hmem := List.mem_map_of_mem TaskInfo.task_id ht
  exact ⟨fun hcx => hcq _ hcx hmem, fun hcx => hpq _ hcx hmem⟩

theorem queued_not_stored {s : SysState} (hinv : Inv s) {t : TaskInfo}
    (ht : t ∈ s.task_queue) :
    lookupA s.active_tasks t.task_id = none ∧
    lookupA s.completed_tasks t.task_id = none := by
  obtain ⟨hcomp, hphase⟩ := queue_id_fresh hinv ht
  constructor
  · cases hps : s.phase with
    | idle =>
      rw [hinv.idle_active hps]
      rfl
    | fetching u =>
      obtain ⟨_, _, _, hact⟩ := hinv.fetch_shape u hps
      rw [hact]
      have hne : u.task_id ≠ t.task_id := by
        intro hcx
        refine hphase ?_
        rw [hps, phaseIds]
        exact hcx ▸ List.mem_singleton.mpr rfl
      simp [lookupA, hne]
  · cases hl : lookupA s.completed_tasks t.task_id with
    | none => rfl
    | some v => exact absurd (hinv.completed_keys_sub _ v hl) hcomp

theorem filter_nil_of_none {α : Type} {l : List α} {p : α → Bool}
    (h : ∀ a ∈ l, p a = false) : l.filter p = [] := by
  induction l with
  | nil => rfl
  | cons a rest ih =>
    have ha := h a (List.mem_cons_self _ _)
    rw [List.filter_cons, ha]
    simp only [Bool.false_eq_true, if_false]
    exact ih fun b hb => h b (List.mem_cons_of_mem _ hb)

theorem reach_st1 : Reachable st1 :=
  Reachable.step Reachable.init
    (Step.submit "task-1" "http://example.com" (by simp [initState]))

theorem reach_st2 : Reachable st2 :=
  Reachable.step reach_st1 (Step.dequeue tinfo1 [] rfl rfl)

/-! ### The claims -/

/-- C1: the claim says a task whose fetch signals a timeout ends with
status `Timeout`.  The code disagrees: `crawl_list_page` turns the
`PlaywrightTimeoutError` into `HTTPException(408, "访问URL超时: <url>")`,
and `task_worker` has only the generic `except Exception` branch, which
records status `failed` — `TaskStatus.TIMEOUT` is never assigned anywhere.
Evaluated on a concrete run: the final record of a timed-out task has
status `failed`, not `timeout`, while its error message does contain the
URL as the claim requires. -/
theorem c1_timeout_recorded_as_failed :
    (finishRecord tproc1 0 FetchOutcome.timeout).status = TaskStatus.failed ∧
    (finishRecord tproc1 0 FetchOutcome.timeout).status ≠ TaskStatus.timeout ∧
    (finishRecord tproc1 0 FetchOutcome.timeout).error =
      some ("408: 访问URL超时: " ++ "http://example.com") ∧
    lookupA (finishTask st2 tproc1 FetchOutcome.timeout).completed_tasks "task-1" =
      some (finishRecord tproc1 0 FetchOutcome.timeout) := by
  refine ⟨rfl, ?_, rfl, rfl⟩
  decide

/-- C2: the claim says every completed record older than the 3600-second
window is removed by a janitor cycle.  The code computes
`(current_time - completed_at).seconds`, the sub-day seconds component of
the `timedelta`, not its total length: a record one day and one second old
has `.seconds = 1` and is retained, although it is far older than the
window, while a two-hour-old record is removed.  Evaluated at those
concrete inputs. -/
theorem c2_janitor_retains_day_old_record :
    (86401 : Nat) - 0 > 3600 ∧
    cleanup_expired_tasks 86401 [("old-task", oldRec)] = [("old-task", oldRec)] ∧
    cleanup_expired_tasks 7201 [("old-task", oldRec)] = [] := by
  refine ⟨by decide, rfl, rfl⟩

/-- C3 counterexample: the claim says every task id in the queue also has
a record in the active-or-pending view of the record store.  In the
reachable state `st1` (one freshly submitted task) the queue holds
`task-1`, yet neither `active_tasks` nor `completed_tasks` has a record
for it and the status endpoint answers 404: `submit_scrape_task` puts the
record only into the queue itself. -/
theorem c3_counterexample_queued_id_not_visible :
    Reachable st1 ∧ tinfo1 ∈ st1.task_queue ∧
    lookupA st1.active_tasks "task-1" = none ∧
    lookupA st1.completed_tasks "task-1" = none ∧
    get_task_status st1 "task-1" = none :=
  ⟨reach_st1, List.mem_cons_self _ _, rfl, rfl, rfl⟩

/-- C3 (amended): at every reachable state, every task id present in the
task queue has NO record in the active or completed partitions — the
record travels inside the queue and becomes visible to readers only when
the worker dequeues it. -/
theorem c3_amended_queue_ids_absent_from_stores {s : SysState} (h : Reachable s)
    {t : TaskInfo} (ht : t ∈ s.task_queue) :
    lookupA s.active_tasks t.task_id = none ∧
    lookupA s.completed_tasks t.task_id = none :=
  queued_not_stored (reach_inv h) ht

/-- C3 (amended) witness at the concrete reachable state `st1`. -/
theorem c3_amended_witness :
    lookupA st1.active_tasks tinfo1.task_id = none ∧
    lookupA st1.completed_tasks tinfo1.task_id = none :=
  c3_amended_queue_ids_absent_from_stores reach_st1 (List.mem_cons_self _ _)

/-- C4: at every reachable state at most one record anywhere in the
system carries status `processing`; and whenever the worker is idle (the
only moment a new task can begin execution), the active partition is
empty and every stored record of a previously dequeued task already has a
terminal status — so no task begins before its predecessor is terminal. -/
theorem c4_at_most_one_processing {s : SysState} (h : Reachable s) :
    processingCount s ≤ 1 ∧
    (s.phase = WorkerPhase.idle →
      s.active_tasks = [] ∧
      ∀ id t, lookupA s.completed_tasks id = some t →
        terminalStatus t.status = true) := by
  have hinv := reach_inv h
  have hqf : s.task_queue.filter (fun t => isProcessing t) = [] := by
    refine filter_nil_of_none ?_
    intro t ht
    rw [isProcessing, (hinv.queue_pending t ht).1]
    rfl
  have hcf : s.completed_tasks.filter (fun p => isProcessing p.2) = [] := by
    refine filter_nil_of_none ?_
    intro p hp
    have hpm : (p.1, p.2) ∈ s.completed_tasks := by
      rw [Prod.mk.eta]
      exact hp
    have hlk : lookupA s.completed_tasks p.1 = some p.2 :=
      lookupA_of_mem_nodup hpm hinv.completed_keys_nodup
    rcases (hinv.completed_facts p.1 p.2 hlk).2 with hst | hst <;>
      simp [isProcessing, hst]
  have hle : (s.active_tasks.filter (fun p => isProcessing p.2)).length ≤ 1 := by
    cases hps : s.phase with
    | idle =>
      rw [hinv.idle_active hps]
      simp
    | fetching u =>
      obtain ⟨_, _, _, hact⟩ := hinv.fetch_shape u hps
      rw [hact]
      have hlen := List.length_filter_le (fun p => isProcessing p.2) [(u.task_id, u)]
      simpa using hlen
  constructor
  · simp only [processingCount, hqf, hcf, List.length_nil, Nat.zero_add, Nat.add_zero]
    exact hle
  · intro hps
    refine ⟨hinv.idle_active hps, ?_⟩
    intro id t hl
    rcases (hinv.completed_facts id t hl).2 with hst | hst <;> rw [hst] <;> rfl

/-- C4 witness at the concrete reachable state `st2` (one task mid-fetch). -/
theorem c4_witness :
    processingCount st2 ≤ 1 ∧
    (st2.phase = WorkerPhase.idle →
      st2.active_tasks = [] ∧
      ∀ id t, lookupA st2.completed_tasks id = some t →
        terminalStatus t.status = true) :=
  c4_at_most_one_processing reach_st2

/-- C5: a task whose fetch succeeds with links `links` ends as a record
in the completed partition with status `completed`, `result` holding
exactly those links in the returned order, and `error` absent. -/
theorem c5_success_completed_record {s : SysState} {t : TaskInfo}
    (h : Reachable s) (hph : s.phase = WorkerPhase.fetching t)
    (links : List ScrapedLink) :
    lookupA (finishTask s t (FetchOutcome.success links)).completed_tasks t.task_id =
      some (finishRecord t s.now (FetchOutcome.success links)) ∧
    (finishRecord t s.now (FetchOutcome.success links)).status = TaskStatus.completed ∧
    (finishRecord t s.now (FetchOutcome.success links)).result = some links ∧
    (finishRecord t s.now (FetchOutcome.success links)).error = none := by
  have hinv := reach_inv h
  obtain ⟨hst, hre, her, hact⟩ := hinv.fetch_shape t hph
  refine ⟨?_, rfl, rfl, ?_⟩
  · simp only [finishTask]
    exact lookupA_insertA_self _ _ _
  · exact her

/-- C5 witness: the task of `st2` succeeding with one link. -/
theorem c5_witness :
    lookupA (finishTask st2 tproc1
        (FetchOutcome.success [⟨"Example", "http://example.com/a"⟩])).completed_tasks
        tproc1.task_id =
      some (finishRecord tproc1 st2.now
        (FetchOutcome.success [⟨"Example", "http://example.com/a"⟩])) ∧
    (finishRecord tproc1 st2.now
        (FetchOutcome.success [⟨"Example", "http://example.com/a"⟩])).status =
      TaskStatus.completed ∧
    (finishRecord tproc1 st2.now
        (FetchOutcome.success [⟨"Example", "http://example.com/a"⟩])).result =
      some [⟨"Example", "http://example.com/a"⟩] ∧
    (finishRecord tproc1 st2.now
        (FetchOutcome.success [⟨"Example", "http://example.com/a"⟩])).error = none :=
  c5_success_completed_record reach_st2 rfl [⟨"Example", "http://example.com/a"⟩]

/-- C6: a task whose fetch raises a non-timeout failure ends with status
`failed`, an error carrying the failure description, and `result` absent;
afterwards the worker is idle again in a reachable state with the queue
untouched, and whenever the queue is non-empty the dequeue of the next
task is an enabled step — the failure neither aborts the worker loop nor
affects any subsequent task. -/
theorem c6_failure_contained {s : SysState} {t : TaskInfo} (m : String)
    (h : Reachable s) (hph : s.phase = WorkerPhase.fetching t) :
    (finishRecord t s.now (FetchOutcome.failure m)).status = TaskStatus.failed ∧
    (finishRecord t s.now (FetchOutcome.failure m)).error =
      some ("500: 发生意外错误: " ++ m) ∧
    (finishRecord t s.now (FetchOutcome.failure m)).result = none ∧
    (finishTask s t (FetchOutcome.failure m)).phase = WorkerPhase.idle ∧
    (finishTask s t (FetchOutcome.failure m)).task_queue = s.task_queue ∧
    Reachable (finishTask s t (FetchOutcome.failure m)) ∧
    (∀ u rest, s.task_queue = u :: rest →
      Step (finishTask s t (FetchOutcome.failure m))
        (dequeueTask (finishTask s t (FetchOutcome.failure m)) u rest)) := by
  have hinv := reach_inv h
  obtain ⟨hst, hre, her, hact⟩ := hinv.fetch_shape t hph
  refine ⟨rfl, rfl, hre, rfl, rfl, ?_, ?_⟩
  · exact Reachable.step h (Step.fetchDone t (FetchOutcome.failure m) hph)
  · intro u rest hqe
    exact Step.dequeue u rest hqe rfl

/-- C6 witness: the task of `st2` failing with message "boom". -/
theorem c6_witness :
    (finishRecord tproc1 st2.now (FetchOutcome.failure "boom")).status =
      TaskStatus.failed ∧
    (finishRecord tproc1 st2.now (FetchOutcome.failure "boom")).error =
      some ("500: 发生意外错误: " ++ "boom") ∧
    (finishRecord tproc1 st2.now (FetchOutcome.failure "boom")).result = none ∧
    (finishTask st2 tproc1 (FetchOutcome.failure "boom")).phase = WorkerPhase.idle ∧
    (finishTask st2 tproc1 (FetchOutcome.failure "boom")).task_queue = st2.task_queue ∧
    Reachable (finishTask st2 tproc1 (FetchOutcome.failure "boom")) ∧
    (∀ u rest, st2.task_queue = u :: rest →
      Step (finishTask st2 tproc1 (FetchOutcome.failure "boom"))
        (dequeueTask (finishTask st2 tproc1 (FetchOutcome.failure "boom")) u rest)) :=
  c6_failure_contained "boom" reach_st2 rfl

/-- C7: at every reachable state the submission order is exactly the
terminal-record order, followed by the task currently executing (if any),
followed by the still-queued tasks in queue order.  Hence tasks are
served and reach their terminal status strictly in submission order: when
some task is executing or completes, every earlier-submitted task already
has its terminal record, whatever the individual fetch durations. -/
theorem c7_fifo_order {s : SysState} (h : Reachable s) :
    s.subLog = s.compLog ++ phaseIds s.phase ++ s.task_queue.map TaskInfo.task_id :=
  (reach_inv h).fifo

/-- C7 witness at the concrete reachable state `st2`. -/
theorem c7_witness :
    st2.subLog = st2.compLog ++ phaseIds st2.phase ++ st2.task_queue.map TaskInfo.task_id :=
  c7_fifo_order reach_st2

/-- C8: a task whose fetch succeeds with zero pairs is recorded
`completed` with an empty (not absent) result — not `failed` — while the
result endpoint answers 404 for it, because `get_task_result` treats a
falsy `task.result` as "任务结果为空". -/
theorem c8_empty_result_completed_but_notfound {s : SysState} {t : TaskInfo}
    (_h : Reachable s) (_hph : s.phase = WorkerPhase.fetching t) :
    (finishRecord t s.now (FetchOutcome.success [])).status = TaskStatus.completed ∧
    (finishRecord t s.now (FetchOutcome.success [])).result = some [] ∧
    get_task_result (finishTask s t (FetchOutcome.success [])) t.task_id =
      ResultQuery.notFound := by
  refine ⟨rfl, rfl, ?_⟩
  have hl : lookupA (finishTask s t (FetchOutcome.success [])).completed_tasks t.task_id =
      some (finishRecord t s.now (FetchOutcome.success [])) := by
    simp only [finishTask]
    exact lookupA_insertA_self _ _ _
  unfold get_task_result
  rw [hl]
  rfl

/-- C8 witness: the task of `st2` succeeding with zero links. -/
theorem c8_witness :
    (finishRecord tproc1 st2.now (FetchOutcome.success [])).status =
      TaskStatus.completed ∧
    (finishRecord tproc1 st2.now (FetchOutcome.success [])).result = some [] ∧
    get_task_result (finishTask st2 tproc1 (FetchOutcome.success []))
        tproc1.task_id = ResultQuery.notFound :=
  c8_empty_result_completed_but_notfound reach_st2 rfl

/-- C9: at every reachable state, the recorded status history of every
submitted task is `[pending]`, `[pending, processing]`, or
`[pending, processing, ts]` for a terminal `ts` — i.e. a prefix of
Pending, then Processing, then exactly one terminal status; no history
skips `processing`, revisits `pending`, or extends past a terminal
status. -/
theorem c9_status_history_shape {s : SysState} (h : Reachable s) {id : String}
    {l : List TaskStatus} (hl : lookupA s.hist id = some l) :
    l = [TaskStatus.pending] ∨ l = [TaskStatus.pending, TaskStatus.processing] ∨
    ∃ ts, terminalStatus ts = true ∧
      l = [TaskStatus.pending, TaskStatus.processing, ts] :=
  (reach_inv h).hist_shape id l hl

/-- C9 witness at the concrete reachable state `st1`. -/
theorem c9_witness :
    [TaskStatus.pending] = [TaskStatus.pending] ∨
    [TaskStatus.pending] = [TaskStatus.pending, TaskStatus.processing] ∨
    ∃ ts, terminalStatus ts = true ∧
      [TaskStatus.pending] = [TaskStatus.pending, TaskStatus.processing, ts] :=
  c9_status_history_shape reach_st1
    (show lookupA st1.hist "task-1" = some [TaskStatus.pending] from rfl)

/-- C10: at every reachable state, a task that is submitted but not yet
dequeued (it sits in the queue, status `pending`) has no record in the
active or completed partitions, and the status endpoint answers 404 for
its id until processing begins. -/
theorem c10_pending_not_visible {s : SysState} (h : Reachable s) {t : TaskInfo}
    (ht : t ∈ s.task_queue) :
    t.status = TaskStatus.pending ∧
    lookupA s.active_tasks t.task_id = none ∧
    lookupA s.completed_tasks t.task_id = none ∧
    get_task_status s t.task_id = none := by
  have hinv := reach_inv h
  obtain ⟨ha, hcp⟩ := queued_not_stored hinv ht
  refine ⟨(hinv.queue_pending t ht).1, ha, hcp, ?_⟩
  unfold get_task_status
  rw [ha]
  exact hcp

/-- C10 witness at the concrete reachable state `st1`. -/
theorem c10_witness :
    tinfo1.status = TaskStatus.pending ∧
    lookupA st1.active_tasks tinfo1.task_id = none ∧
    lookupA st1.completed_tasks tinfo1.task_id = none ∧
    get_task_status st1 tinfo1.task_id = none :=
  c10_pending_not_visible reach_st1 (List.mem_cons_self _ _)

end FeishuScrape
